import Mathlib

/-!
Shallow embedding of `src/controller.py` of the kubernetes-image-updater
repository, together with theorems settling the specification claims.

Modelling conventions:
* Python strings are `List Char` (`Str`); Lean string literals are converted
  with `strL` (Lean 4.14 strings wrap a `List Char`, so this is the identity
  on data).
* Python dicts are association lists with Python's insertion semantics
  (`pyInsert` replaces the value in place for an existing key and appends a
  new key at the end); iteration order is the list order, as in Python 3.7+.
* Python exceptions are values of `PyErr` carried in `Except`; `Except.error`
  models a raised exception.  `PyErr.valueError` embeds the built-in
  `ValueError` (raised by tuple unpacking in `ImageReference.parse`; the
  spec's taxonomy names this failure `InvalidReferenceError`).
* Network I/O (`requests`) is an explicit oracle (`RegistryOracle`,
  `ImageRegistryFn`); transport failures (`requests.RequestException`) are
  the oracle's `Except.error ()`.
-/

/-- Python strings are modelled as lists of characters. -/
abbrev Str : Type := List Char

/-- Literal conversion: a Lean 4.14 `String` is a structure wrapping its
character list, so this is definitionally its data. -/
def strL (s : String) : Str := s.data

/-- Whitespace predicate used by Python's `str.strip()` (modelled with
`Char.isWhitespace`, which covers the ASCII whitespace that occurs in
annotation values). -/
def isWS (c : Char) : Bool := c.isWhitespace

/-- Python `s.strip()`: drop whitespace from both ends. -/
def pyStrip (s : Str) : Str :=
  ((s.dropWhile isWS).reverse.dropWhile isWS).reverse

/-- Python `s.split(c)` for a one-character separator: always returns at
least one part, `"".split(c) == [""]`. -/
def pySplit (c : Char) : Str → List Str
  | [] => [[]]
  | x :: xs =>
    if x = c then [] :: pySplit c xs
    else
      match pySplit c xs with
      | [] => [[x]]
      | h :: t => (x :: h) :: t

/-- Python `s.split(c, 1)` when the separator is present: the part before the
first `c` and the part after it.  (The callers in the source only invoke it
after an `in` check; on a separator-free string this returns `(s, [])`.) -/
def pySplitFirst (c : Char) : Str → Str × Str
  | [] => ([], [])
  | x :: xs =>
    if x = c then ([], xs)
    else
      let p := pySplitFirst c xs
      (x :: p.1, p.2)

/-- Python `s.rsplit(c, 1)` when the separator is present: split at the
last occurrence of `c`. -/
def pyRSplitFirst (c : Char) (s : Str) : Str × Str :=
  let p := pySplitFirst c s.reverse
  (p.2.reverse, p.1.reverse)

/-- Python `c in s` for a character and a string. -/
def pyContains (c : Char) (s : Str) : Bool := s.any (fun x => x == c)

/-- Python `s.startswith(p)`. -/
def pyStartsWith : Str → Str → Bool
  | [], _ => true
  | _ :: _, [] => false
  | a :: ps, b :: ss => a == b && pyStartsWith ps ss

/-- Python `s.lower()` (character-wise; the source only lowercases the
ASCII auth scheme). -/
def pyLower (s : Str) : Str := s.map Char.toLower

/-- Python `s.partition(c)` restricted to the two parts the source uses:
`(before, after)`, with `after = ""` when the separator is absent. -/
def pyPartition1 (c : Char) (s : Str) : Str × Str :=
  if pyContains c s then pySplitFirst c s else (s, [])

/-- Python `",".join(parts)` for a one-character separator. -/
def pyJoin (c : Char) : List Str → Str
  | [] => []
  | [x] => x
  | x :: y :: t => x ++ c :: pyJoin c (y :: t)

/-- Keys of an association-list dict, in insertion order. -/
def pyKeys (l : List (Str × Str)) : List Str := l.map Prod.fst

/-- Python `d.get(k)` / `d[k]`: first matching value. -/
def pyGet : List (Str × Str) → Str → Option Str
  | [], _ => none
  | (k, v) :: t, q => if k = q then some v else pyGet t q

/-- Python `k in d`. -/
def pyHasKey (l : List (Str × Str)) (q : Str) : Bool :=
  (pyKeys l).any (fun k => k == q)

/-- Python `d[k] = v`: replace in place when the key exists, append
otherwise. -/
def pyInsert (l : List (Str × Str)) (k v : Str) : List (Str × Str) :=
  if pyHasKey l k then l.map (fun p => if p.1 = k then (p.1, v) else p)
  else l ++ [(k, v)]

/-- Python truthiness of an `Optional[str]`: `None` and `""` are falsy. -/
def pyTruthy : Option Str → Bool
  | none => false
  | some s => decide (s ≠ [])

/-- `Config.DEFAULT_REGISTRY` from the source. -/
def Config.DEFAULT_REGISTRY : Str := strL (r"registry-1.docker.io")

/-- `Config.DEFAULT_NAMESPACE` from the source. -/
def Config.DEFAULT_NAMESPACE : Str := strL (r"library")

/-- The Python exceptions relevant to the embedded core.  `valueError` is
the built-in `ValueError` (the failure of `ImageReference.parse`, which the
spec's taxonomy calls `InvalidReferenceError`); `digestFetch` and
`authentication` are `DigestFetchError` and `AuthenticationError` from the
source. -/
inductive PyErr where
  | valueError
  | digestFetch
  | authentication
deriving DecidableEq

/-- `ImageReference`: parsed container image reference. -/
structure ImageReference where
  registry : Str
  repository : Str
  tag : Str
deriving DecidableEq

/-- `ImageReference.parse`: `name, tag = image.rsplit(":", 1)` raises
`ValueError` when there is no colon (`rsplit` then yields a single part and
tuple unpacking fails); otherwise Docker-Hub shorthand handling as in the
source. -/
def ImageReference.parse (image : Str) : Except PyErr ImageReference :=
  if pyContains ':' image = false then Except.error PyErr.valueError
  else
    let nt := pyRSplitFirst ':' image
    let name := nt.1
    let tag := nt.2
    if pyContains '/' name = false then
      Except.ok ⟨Config.DEFAULT_REGISTRY,
        Config.DEFAULT_NAMESPACE ++ '/' :: name, tag⟩
    else
      let first := (pySplit '/' name).headD []
      if pyContains '.' first || pyContains ':' first then
        let rr := pySplitFirst '/' name
        Except.ok ⟨rr.1, rr.2, tag⟩
      else
        Except.ok ⟨Config.DEFAULT_REGISTRY, name, tag⟩

/-- The string `"Always"`. -/
def alwaysStr : Str := strL (r"Always")

/-- `ContainerInfo`: name, image, optional `imagePullPolicy`. -/
structure ContainerInfo where
  name : Str
  image : Str
  image_pull_policy : Option Str := none
deriving DecidableEq

/-- `ContainerInfo.needs_pull_policy_update`:
`self.image_pull_policy != "Always"` (a missing policy also counts). -/
def ContainerInfo.needs_pull_policy_update (c : ContainerInfo) : Bool :=
  decide (c.image_pull_policy ≠ some alwaysStr)

/-- The legacy sentinel key `"__legacy__"`. -/
def legacyKey : Str := strL (r"__legacy__")

/-- `DigestMap`: container-name → digest dict. -/
structure DigestMap where
  digests : List (Str × Str)
deriving DecidableEq

/-- The legacy-format test of `DigestMap.from_annotation`: starts with a
digest-algorithm prefix and contains no comma. -/
def isLegacyAnnot (s : Str) : Bool :=
  (pyStartsWith (strL (r"sha256:")) s || pyStartsWith (strL (r"sha384:")) s
    || pyStartsWith (strL (r"sha512:")) s)
  && !(pyContains ',' s)

/-- One iteration of the entry loop in `DigestMap.from_annotation`: strip
the entry, skip it without a colon, split at the first colon, strip both
sides, and insert when both are non-empty. -/
def parseEntry (acc : List (Str × Str)) (raw : Str) : List (Str × Str) :=
  let e := pyStrip raw
  if pyContains ':' e = false then acc
  else
    let nd := pySplitFirst ':' e
    let n := pyStrip nd.1
    let d := pyStrip nd.2
    if n ≠ [] ∧ d ≠ [] then pyInsert acc n d else acc

/-- The entry loop of `DigestMap.from_annotation` over the comma-split
parts. -/
def parseEntries (s : Str) : List (Str × Str) :=
  (pySplit ',' s).foldl parseEntry []

/-- `DigestMap.from_annotation` (the annotation decoder). -/
def DigestMap.from_annot : Option Str → DigestMap
  | none => ⟨[]⟩
  | some s =>
    if s = [] then ⟨[]⟩
    else if isLegacyAnnot s then ⟨[(legacyKey, s)]⟩
    else ⟨parseEntries s⟩

/-- Python tuple comparison on `(name, digest)` pairs, as used by
`sorted(self.digests.items())`. -/
def pairLe (a b : Str × Str) : Prop :=
  a.1 < b.1 ∨ (a.1 = b.1 ∧ a.2 ≤ b.2)

instance : DecidableRel pairLe := fun a b => by
  unfold pairLe; infer_instance

/-- `sorted(self.digests.items())` (on distinct keys any sort by the pair
order agrees with Python's stable sort, because no two pairs tie). -/
def sortPairs (l : List (Str × Str)) : List (Str × Str) :=
  List.insertionSort pairLe l

/-- The f-string `f"{name}:{digest}"`. -/
def entryStr (p : Str × Str) : Str := p.1 ++ ':' :: p.2

/-- `DigestMap.to_annotation` (the annotation encoder): join the sorted
`name:digest` pairs with commas. -/
def DigestMap.to_annot (m : DigestMap) : Str :=
  pyJoin ',' ((sortPairs m.digests).map entryStr)

/-- `DigestMap.has_changed`: some current entry differs from or is absent in
`self`, or some non-legacy stored name is absent from `current`. -/
def DigestMap.has_changed (self current : DigestMap) : Bool :=
  current.digests.any (fun p => decide (pyGet self.digests p.1 ≠ some p.2))
  || self.digests.any
      (fun p => !(pyHasKey current.digests p.1) && decide (p.1 ≠ legacyKey))

/-- `DigestMap.migrate_legacy`: when the sentinel key is present return a
map holding only the primary container bound to the legacy digest,
otherwise return `self`. -/
def DigestMap.migrate_legacy (self : DigestMap) (primary : Str) : DigestMap :=
  match pyGet self.digests legacyKey with
  | some v => ⟨[(primary, v)]⟩
  | none => self

/-- The double-quote character (Python strips it from auth parameter
values with `.strip('"')`). -/
def quoteChar : Char := Char.ofNat 34

/-- Python `v.strip('"')`: drop double quotes from both ends. -/
def stripQuotes (s : Str) : Str :=
  ((s.dropWhile (fun c => c == quoteChar)).reverse.dropWhile
    (fun c => c == quoteChar)).reverse

/-- An HTTP response as far as the registry client inspects it: status code
and the two headers that are read. -/
structure HttpResponse where
  status : Nat
  wwwAuthenticate : Option Str := none
  dockerContentDigest : Option Str := none

/-- The JSON body of a token-endpoint response, reduced to the two fields
the source reads. -/
structure TokenBody where
  token : Option Str := none
  access_token : Option Str := none

/-- The network boundary of `ImageRegistry` for one image reference.
`manifestGet` is `session.get` on the fixed manifest URL, parameterised by
the only varying input, the optional bearer token; `tokenGet` is the
`requests.get` against the challenge realm with the query parameters.
`Except.error ()` is a raised `requests.RequestException` (the token
endpoint's status is returned so that its `raise_for_status` is code, not
oracle). -/
structure RegistryOracle where
  manifestGet : Option Str → Except Unit HttpResponse
  tokenGet : Str → List (Str × Str) → Except Unit (Nat × TokenBody)

/-- `ImageRegistry._parse_auth_header`: empty for a missing header or a
non-Bearer scheme, otherwise the `key=value` parts with stripped keys and
quote-stripped values. -/
def parseAuthHeader : Option Str → List (Str × Str)
  | none => []
  | some h =>
    let sp := pyPartition1 ' ' h
    if pyLower sp.1 ≠ strL (r"bearer") then []
    else
      (pySplit ',' sp.2).foldl
        (fun acc part =>
          if pyContains '=' part = false then acc
          else
            let kv := pySplitFirst '=' part
            pyInsert acc (pyStrip kv.1) (stripQuotes (pyStrip kv.2)))
        []

/-- Python `x or y` on optional strings (`""` is falsy). -/
def pyOrOpt (a b : Option Str) : Option Str :=
  match a with
  | some v => if v ≠ [] then some v else b
  | none => b

/-- `ImageRegistry._get_bearer_token`: `None` when the header is absent,
the scheme is not Bearer, the realm is missing or falsy, the token request
raises or has an error status; otherwise `token or access_token` from the
body. -/
def getBearerToken (oracle : RegistryOracle) (authHeader : Option Str)
    (repository : Str) : Option Str :=
  match authHeader with
  | none => none
  | some _ =>
    let params := parseAuthHeader authHeader
    match pyGet params (strL (r"realm")) with
    | none => none
    | some realm =>
      if realm = [] then none
      else
        let scope := (pyGet params (strL (r"scope"))).getD
          (strL (r"repository:") ++ repository ++ strL (r":pull"))
        let q0 := pyInsert [] (strL (r"scope")) scope
        let query :=
          match pyGet params (strL (r"service")) with
          | some sv => if sv ≠ [] then pyInsert q0 (strL (r"service")) sv else q0
          | none => q0
        match oracle.tokenGet realm query with
        | Except.error _ => none
        | Except.ok st =>
          if 400 ≤ st.1 then none
          else pyOrOpt st.2.token st.2.access_token

/-- `ImageRegistry._fetch_manifest`: unauthenticated GET; on 401 attempt the
bearer-token flow and retry once when a truthy token was obtained; finally
`raise_for_status`. -/
def fetchManifest (oracle : RegistryOracle) (repository : Str) :
    Except Unit HttpResponse :=
  match oracle.manifestGet none with
  | Except.error e => Except.error e
  | Except.ok r1 =>
    let retried : Except Unit HttpResponse :=
      if r1.status = 401 then
        match getBearerToken oracle r1.wwwAuthenticate repository with
        | some tok =>
          if tok ≠ [] then oracle.manifestGet (some tok) else Except.ok r1
        | none => Except.ok r1
      else Except.ok r1
    match retried with
    | Except.error e => Except.error e
    | Except.ok r2 =>
      if 400 ≤ r2.status then Except.error () else Except.ok r2

/-- `ImageRegistry.get_digest`: any `requests.RequestException` becomes
`DigestFetchError`; a missing (or falsy) `Docker-Content-Digest` header is
also a `DigestFetchError`. -/
def ImageRegistry.get_digest (oracle : RegistryOracle) (ref : ImageReference) :
    Except PyErr Str :=
  match fetchManifest oracle ref.repository with
  | Except.error _ => Except.error PyErr.digestFetch
  | Except.ok resp =>
    match resp.dockerContentDigest with
    | none => Except.error PyErr.digestFetch
    | some d => if d = [] then Except.error PyErr.digestFetch else Except.ok d

/-- The workload annotations the core reads, modelling
`metadata.get("annotations", {})` restricted to the keys the source looks
up (an absent key is `none`). -/
structure Annotations where
  track : Option Str := none
  ignore : Option Str := none
  trackInit : Option Str := none
  lastDigest : Option Str := none
deriving DecidableEq

/-- The set comprehension over a track/ignore annotation value: stripped
comma-separated names with falsy entries dropped (membership is all the
source uses, so a list models the Python set). -/
def splitNames (s : Str) : List Str :=
  ((pySplit ',' s).map pyStrip).filter (fun n => decide (n ≠ []))

/-- `ContainerSelector.select`: a truthy track annotation is an exclusive
allow-list, else a truthy ignore annotation is a deny-list, else all
containers. -/
def ContainerSelector.select (containers : List ContainerInfo)
    (annotations : Option Annotations) : List ContainerInfo :=
  let a := annotations.getD {}
  if pyTruthy a.track then
    let names := splitNames (a.track.getD [])
    containers.filter (fun c => names.contains c.name)
  else if pyTruthy a.ignore then
    let names := splitNames (a.ignore.getD [])
    containers.filter (fun c => !(names.contains c.name))
  else containers

/-- The patch document built by `WorkloadManager.restart`, as far as its
shape varies: the last-digest annotation value, the pod-template restart
timestamp, and — when present — the `spec.template.spec.containers` list of
names each paired with `imagePullPolicy: "Always"` (`none` means that
sub-path is omitted from the patch). -/
structure Patch where
  lastDigestAnnot : Str
  restartedAt : Str
  pullPolicyContainers : Option (List Str) := none
deriving DecidableEq

/-- `WorkloadManager.restart` as a pure patch builder (the timestamp is the
injected wall clock; the workload kind only selects the API endpoint and
does not alter the patch body). -/
def WorkloadManager.restart (digest_map : DigestMap)
    (containers : List ContainerInfo) (force_pull_policy : Bool)
    (timestamp : Str) : Patch :=
  let base : Patch :=
    { lastDigestAnnot := digest_map.to_annot, restartedAt := timestamp }
  if force_pull_policy then
    let need := containers.filter ContainerInfo.needs_pull_policy_update
    if need ≠ [] then
      { base with pullPolicyContainers := some (need.map ContainerInfo.name) }
    else base
  else base

/-- A raw container entry of the pod spec (a dict that may lack fields). -/
structure RawContainer where
  name : Option Str := none
  image : Option Str := none
  imagePullPolicy : Option Str := none
deriving DecidableEq

/-- The pod spec `spec.template.spec` reduced to the two lists the source
reads (`.get(..., [])` makes an absent list empty). -/
structure PodSpec where
  containers : List RawContainer := []
  initContainers : List RawContainer := []
deriving DecidableEq

/-- `ImageUpdateReconciler._parse_containers`: keep exactly the entries
having both a `name` and an `image` field. -/
def parse_containers (l : List RawContainer) : List ContainerInfo :=
  (l.filter (fun c => c.name.isSome && c.image.isSome)).map
    (fun c => ⟨c.name.getD [], c.image.getD [], c.imagePullPolicy⟩)

/-- The reconciler's registry dependency: what `self.registry.get_digest`
returns for a parsed reference (an `ImageRegistry` instance or a test
double). -/
abbrev ImageRegistryFn : Type := ImageReference → Except PyErr Str

/-- One container's digest resolution inside `_fetch_digests`: parse the
image, then ask the registry. -/
def resolveContainerDigest (registry : ImageRegistryFn) (c : ContainerInfo) :
    Except PyErr Str :=
  match ImageReference.parse c.image with
  | Except.error e => Except.error e
  | Except.ok ref => registry ref

/-- One iteration of the `_fetch_digests` loop over the accumulator
`(digests, failed)`: `DigestFetchError` and `ValueError` are caught and the
container name is appended to `failed`; any other exception propagates. -/
def fetchDigestsStep (registry : ImageRegistryFn)
    (acc : List (Str × Str) × List Str) (c : ContainerInfo) :
    Except PyErr (List (Str × Str) × List Str) :=
  match resolveContainerDigest registry c with
  | Except.ok d => Except.ok (pyInsert acc.1 c.name d, acc.2)
  | Except.error PyErr.digestFetch => Except.ok (acc.1, acc.2 ++ [c.name])
  | Except.error PyErr.valueError => Except.ok (acc.1, acc.2 ++ [c.name])
  | Except.error e => Except.error e

/-- `ImageUpdateReconciler._fetch_digests`: `none` when any container's
resolution failed with a caught error, otherwise the digest dict. -/
def fetch_digests (registry : ImageRegistryFn)
    (containers : List ContainerInfo) : Except PyErr (Option DigestMap) :=
  match containers.foldlM (fetchDigestsStep registry) ([], []) with
  | Except.error e => Except.error e
  | Except.ok acc =>
    Except.ok (if acc.2 = [] then some ⟨acc.1⟩ else none)

/-- The string `"true"`. -/
def trueStr : Str := strL (r"true")

/-- The tracked set assembled by `reconcile`: the selector's output over the
regular containers, extended with all init containers when the
track-init-containers annotation is exactly `"true"`. -/
def trackedContainersOf (podSpec : PodSpec) (annotations : Annotations) :
    List ContainerInfo :=
  ContainerSelector.select (parse_containers podSpec.containers)
      (some annotations)
    ++ (if annotations.trackInit = some trueStr
        then parse_containers podSpec.initContainers else [])

/-- The value of the `containers` variable at the `restart` call site.  In
the selector's track-all branch (neither the track nor the ignore
annotation is truthy) `select` returns the very list object `containers`,
so the in-place `tracked.extend(init_containers)` appends the init
containers to `containers` itself when the track-init-containers
annotation is `"true"`; in every other case `containers` stays the parsed
regular list. -/
def restartContainersOf (podSpec : PodSpec) (annotations : Annotations) :
    List ContainerInfo :=
  if pyTruthy annotations.track = false ∧ pyTruthy annotations.ignore = false
      ∧ annotations.trackInit = some trueStr then
    parse_containers podSpec.containers ++ parse_containers podSpec.initContainers
  else parse_containers podSpec.containers

/-- The restart invocation recorded when `reconcile` patches: the freshly
resolved digest map, the container list handed to
`WorkloadManager.restart`, and the patch it builds. -/
structure RestartCall where
  digest_map : DigestMap
  containers : List ContainerInfo
  patch : Patch
deriving DecidableEq

/-- `ImageUpdateReconciler.reconcile` as a function from its inputs (with
the registry, the force-pull-policy configuration and the wall clock
injected) to either a propagated exception, no action (`ok none`), or the
restart call it performs.  `ok none` means no patch was issued and the
stored annotation is untouched.  The list handed to
`WorkloadManager.restart` is `restartContainersOf`: the source passes the
(possibly aliased and hence extend-mutated) `containers` variable, not the
parsed regular list verbatim. -/
def reconcile (registry : ImageRegistryFn) (force_pull_policy : Bool)
    (timestamp : Str) (podSpec : PodSpec) (annotations : Annotations) :
    Except PyErr (Option RestartCall) :=
  let containers := parse_containers podSpec.containers
  if containers = [] then Except.ok none
  else
    let tracked := trackedContainersOf podSpec annotations
    if tracked = [] then Except.ok none
    else
      match fetch_digests registry tracked with
      | Except.error e => Except.error e
      | Except.ok none => Except.ok none
      | Except.ok (some current_digests) =>
        let stored0 := DigestMap.from_annot annotations.lastDigest
        let stored :=
          if pyHasKey stored0.digests legacyKey && !(tracked.isEmpty) then
            stored0.migrate_legacy ((tracked.headD ⟨[], [], none⟩).name)
          else stored0
        if stored.has_changed current_digests then
          Except.ok (some
            { digest_map := current_digests
              containers := restartContainersOf podSpec annotations
              patch := WorkloadManager.restart current_digests
                (restartContainersOf podSpec annotations)
                force_pull_policy timestamp })
        else Except.ok none

/-- Executable substring test (`p` occurs contiguously in `s`), used to
state the serialization claims about the legacy sentinel. -/
def hasSub (p : Str) : Str → Bool
  | [] => p.isEmpty
  | x :: t => pyStartsWith p (x :: t) || hasSub p t

/-- The claim's well-formedness predicate on an annotation string: not the
bare-digest legacy pattern, and every comma-separated entry carries a colon
with non-empty stripped name and digest. -/
def wellFormedAnnot (s : Str) : Bool :=
  !(isLegacyAnnot s)
  && (pySplit ',' s).all (fun e =>
      let e' := pyStrip e
      pyContains ':' e'
      && decide (pyStrip (pySplitFirst ':' e').1 ≠ [])
      && decide (pyStrip (pySplitFirst ':' e').2 ≠ []))

/-- `p` occurs contiguously inside `s` (propositional form of `hasSub`). -/
def ContainsSub (p s : Str) : Prop := ∃ u v, s = u ++ p ++ v

/-- The shape invariant of every entry the decoder's map branch stores:
stripped non-empty colon-free name, stripped non-empty digest, neither
containing the comma separator. -/
def GoodPair (pr : Str × Str) : Prop :=
  pyStrip pr.1 = pr.1 ∧ pr.1 ≠ [] ∧ ':' ∉ pr.1 ∧ ',' ∉ pr.1
  ∧ pyStrip pr.2 = pr.2 ∧ pr.2 ≠ [] ∧ ',' ∉ pr.2

instance : IsTotal (Str × Str) pairLe := by
  constructor
  intro a b
  rcases lt_trichotomy a.1 b.1 with h | h | h
  · exact Or.inl (Or.inl h)
  · rcases le_total a.2 b.2 with h2 | h2
    · exact Or.inl (Or.inr ⟨h, h2⟩)
    · exact Or.inr (Or.inr ⟨h.symm, h2⟩)
  · exact Or.inr (Or.inl h)

instance : IsTrans (Str × Str) pairLe := by
  constructor
  intro a b c hab hbc
  rcases hab with h1 | ⟨h1, h1'⟩
  · rcases hbc with h2 | ⟨h2, _⟩
    · exact Or.inl (h1.trans h2)
    · exact Or.inl (h2 ▸ h1)
  · rcases hbc with h2 | ⟨h2, h2'⟩
    · exact Or.inl (h1 ▸ h2)
    · exact Or.inr ⟨h1.trans h2, h1'.trans h2'⟩

/- ======================  theorems  ====================== -/

lemma pyContains_iff (c : Char) (s : Str) : pyContains c s = true ↔ c ∈ s := by
  simp [pyContains]

lemma pyStartsWith_iff (p s : Str) :
    pyStartsWith p s = true ↔ ∃ v, s = p ++ v := by
  induction p generalizing s with
  | nil => simp [pyStartsWith]
  | cons a ps ih =>
    cases s with
    | nil =>
      simp only [pyStartsWith]
      constructor
      · intro h; exact absurd h (by simp)
      · rintro ⟨v, hv⟩; exact absurd hv (by simp)
    | cons b ss =>
      simp only [pyStartsWith, Bool.and_eq_true, beq_iff_eq, ih]
      constructor
      · rintro ⟨rfl, v, rfl⟩; exact ⟨v, rfl⟩
      · rintro ⟨v, hv⟩
        rw [List.cons_append] at hv
        cases hv
        exact ⟨rfl, v, rfl⟩

lemma hasSub_iff (p s : Str) : hasSub p s = true ↔ ContainsSub p s := by
  induction s with
  | nil =>
    simp only [hasSub, List.isEmpty_iff, ContainsSub]
    constructor
    · rintro rfl; exact ⟨[], [], rfl⟩
    · rintro ⟨u, v, hv⟩
      rcases List.append_eq_nil.mp (List.append_eq_nil.mp hv.symm).1 with ⟨_, h2⟩
      exact h2
  | cons x t ih =>
    simp only [hasSub, Bool.or_eq_true, pyStartsWith_iff, ih, ContainsSub]
    constructor
    · rintro (⟨v, hv⟩ | ⟨u, v, hv⟩)
      · exact ⟨[], v, by simpa using hv⟩
      · exact ⟨x :: u, v, by simp [hv]⟩
    · rintro ⟨u, v, hv⟩
      cases u with
      | nil => exact Or.inl ⟨v, by simpa using hv⟩
      | cons y u' =>
        rw [List.cons_append, List.cons_append] at hv
        cases hv
        exact Or.inr ⟨u', v, rfl⟩

lemma pyGet_eq_none_iff (l : List (Str × Str)) (k : Str) :
    pyGet l k = none ↔ k ∉ pyKeys l := by
  induction l with
  | nil => simp [pyGet, pyKeys]
  | cons p t ih =>
    obtain ⟨a, b⟩ := p
    by_cases h : a = k
    · subst h; simp [pyGet, pyKeys]
    · simp [pyGet, pyKeys, h, Ne.symm h] at ih ⊢
      simpa [pyKeys] using ih

lemma pyGet_mem {l : List (Str × Str)} {k v : Str} (h : pyGet l k = some v) :
    (k, v) ∈ l := by
  induction l with
  | nil => simp [pyGet] at h
  | cons p t ih =>
    obtain ⟨a, b⟩ := p
    by_cases ha : a = k
    · subst ha
      have hbv : b = v := by simpa [pyGet] using h
      subst hbv; exact List.mem_cons_self _ _
    · simp only [pyGet, if_neg ha] at h
      exact List.mem_cons_of_mem _ (ih h)

lemma pyGet_of_mem_nodup {l : List (Str × Str)} {k v : Str}
    (hnd : (pyKeys l).Nodup) (h : (k, v) ∈ l) : pyGet l k = some v := by
  induction l with
  | nil => simp at h
  | cons p t ih =>
    obtain ⟨a, b⟩ := p
    simp only [pyKeys, List.map_cons, List.nodup_cons] at hnd
    rcases List.mem_cons.mp h with heq | hmem
    · cases heq; simp [pyGet]
    · have hak : a ≠ k := by
        intro hak; subst hak
        exact hnd.1 (List.mem_map_of_mem Prod.fst hmem)
      simp only [pyGet, if_neg hak]
      exact ih hnd.2 hmem

lemma pyHasKey_iff (l : List (Str × Str)) (k : Str) :
    pyHasKey l k = true ↔ k ∈ pyKeys l := by
  simp [pyHasKey]

/-- C2: `has_changed(stored, current)` is true exactly when some name in
`current` maps to a digest that is different from or absent in `stored`, or
some non-legacy name of `stored` is absent from `current`; in particular it
is false when `stored` and `current` agree as dicts (same keys, equal
values, i.e. equal lookup functions). -/
theorem c2_has_changed_iff (stored current : DigestMap)
    (hnd : (pyKeys current.digests).Nodup) :
    (stored.has_changed current = true ↔
      ((∃ n d, pyGet current.digests n = some d ∧ pyGet stored.digests n ≠ some d)
        ∨ (∃ n, n ∈ pyKeys stored.digests ∧ n ∉ pyKeys current.digests
            ∧ n ≠ legacyKey)))
    ∧ ((∀ n, pyGet stored.digests n = pyGet current.digests n) →
        stored.has_changed current = false) := by
  have hiff : stored.has_changed current = true ↔
      ((∃ n d, pyGet current.digests n = some d ∧ pyGet stored.digests n ≠ some d)
        ∨ (∃ n, n ∈ pyKeys stored.digests ∧ n ∉ pyKeys current.digests
            ∧ n ≠ legacyKey)) := by
    simp only [DigestMap.has_changed, Bool.or_eq_true, List.any_eq_true,
      Bool.and_eq_true, Bool.not_eq_true', decide_eq_true_eq, pyHasKey_iff]
    constructor
    · rintro (⟨p, hp, hne⟩ | ⟨p, hp, hnk, hnleg⟩)
      · exact Or.inl ⟨p.1, p.2, pyGet_of_mem_nodup hnd hp, hne⟩
      · refine Or.inr ⟨p.1, List.mem_map_of_mem Prod.fst hp, ?_, hnleg⟩
        intro hmem
        rw [← pyHasKey_iff] at hmem
        simp [hmem] at hnk
    · rintro (⟨n, d, hc, hs⟩ | ⟨n, hn, hnc, hnl⟩)
      · exact Or.inl ⟨(n, d), pyGet_mem hc, hs⟩
      · rcases List.mem_map.mp hn with ⟨p, hp, rfl⟩
        refine Or.inr ⟨p, hp, ?_, hnl⟩
        rw [← pyHasKey_iff] at hnc
        simpa using hnc
  refine ⟨hiff, fun heq => ?_⟩
  by_contra hne
  rw [Bool.not_eq_false] at hne
  rcases hiff.mp hne with ⟨n, d, hc, hs⟩ | ⟨n, hn, hnc, _⟩
  · exact hs ((heq n).trans hc)
  · have h1 : pyGet stored.digests n ≠ none := by
      rw [Ne, pyGet_eq_none_iff]; simpa using hn
    have h2 : pyGet current.digests n = none :=
      (pyGet_eq_none_iff _ _).mpr hnc
    exact h1 ((heq n).trans h2)

/-- C2 witness: the characterization instantiated on a concrete changed
pair. -/
theorem c2_witness :
    (DigestMap.mk [(strL (r"app"), strL (r"sha256:old"))]).has_changed
      ⟨[(strL (r"app"), strL (r"sha256:new"))]⟩ = true :=
  (c2_has_changed_iff ⟨[(strL (r"app"), strL (r"sha256:old"))]⟩
      ⟨[(strL (r"app"), strL (r"sha256:new"))]⟩ (by decide)).1.mpr
    (Or.inl ⟨strL (r"app"), strL (r"sha256:new"), by decide, by decide⟩)

/-- C5: an image string with no colon fails `ImageReference.parse` with the
reference-parse error (Python's `ValueError` from unpacking `rsplit`'s
single part, the failure the spec names `InvalidReferenceError`), rather
than returning a reference or failing with a fetch-type error. -/
theorem c5_parse_no_tag_separator (s : Str) (h : ':' ∉ s) :
    ImageReference.parse s = Except.error PyErr.valueError := by
  have hc : pyContains ':' s = false := by
    rw [← Bool.not_eq_true, pyContains_iff]; exact h
  simp [ImageReference.parse, hc]

/-- C5 witness: the taggless image string `"nginx"`. -/
theorem c5_witness :
    ':' ∉ strL (r"nginx")
    ∧ ImageReference.parse (strL (r"nginx")) = Except.error PyErr.valueError :=
  ⟨by decide, c5_parse_no_tag_separator _ (by decide)⟩

/-- C8 counterexample: a map holding the legacy sentinel *and* a second
entry (producible from the annotation `"__legacy__:sha256:abc,web:sha256:def"`):
the claim says migration carries every other entry over unchanged, but the
code returns a map holding only the primary name — the `web` entry is
dropped. -/
theorem c8_counterexample :
    (DigestMap.migrate_legacy
        ⟨[(legacyKey, strL (r"sha256:abc")),
          (strL (r"web"), strL (r"sha256:def"))]⟩ (strL (r"nginx"))
      = ⟨[(strL (r"nginx"), strL (r"sha256:abc"))]⟩)
    ∧ pyGet (DigestMap.migrate_legacy
        ⟨[(legacyKey, strL (r"sha256:abc")),
          (strL (r"web"), strL (r"sha256:def"))]⟩ (strL (r"nginx"))).digests
        (strL (r"web")) = none
    ∧ pyGet [(legacyKey, strL (r"sha256:abc")),
          (strL (r"web"), strL (r"sha256:def"))] (strL (r"web"))
        = some (strL (r"sha256:def")) := by
  exact ⟨by decide, by decide, by decide⟩

/-- C8 (amended): when the legacy sentinel is present, `migrate_legacy`
returns the map holding exactly the primary name bound to the legacy digest
(all other entries are discarded); when it is absent, it returns the input
unchanged. -/
theorem c8_migrate_legacy (m : DigestMap) (p : Str) :
    (∀ v, pyGet m.digests legacyKey = some v →
      m.migrate_legacy p = ⟨[(p, v)]⟩)
    ∧ (pyGet m.digests legacyKey = none → m.migrate_legacy p = m) := by
  constructor
  · intro v hv; simp [DigestMap.migrate_legacy, hv]
  · intro hv; simp [DigestMap.migrate_legacy, hv]

/-- C8 witness: both branches instantiated on concrete maps. -/
theorem c8_witness :
    (DigestMap.migrate_legacy ⟨[(legacyKey, strL (r"sha256:abc"))]⟩
        (strL (r"nginx")) = ⟨[(strL (r"nginx"), strL (r"sha256:abc"))]⟩)
    ∧ (DigestMap.migrate_legacy ⟨[(strL (r"web"), strL (r"sha256:def"))]⟩
        (strL (r"nginx")) = ⟨[(strL (r"web"), strL (r"sha256:def"))]⟩) :=
  ⟨(c8_migrate_legacy ⟨[(legacyKey, strL (r"sha256:abc"))]⟩
      (strL (r"nginx"))).1 _ (by decide),
    (c8_migrate_legacy ⟨[(strL (r"web"), strL (r"sha256:def"))]⟩
      (strL (r"nginx"))).2 (by decide)⟩

/-- C4 counterexample: a registry answering 401 with a non-Bearer challenge
— a token challenge that cannot be satisfied — makes `get_digest` fail with
`DigestFetchError` (the retried `raise_for_status` on the 401), not with
`AuthenticationError` as the claim requires; the bearer-token helper
returns `None` instead of raising. -/
theorem c4_counterexample :
    ImageRegistry.get_digest
        ⟨fun _ => Except.ok ⟨401, some (strL (r"Basic realm=x")), none⟩,
          fun _ _ => Except.error ()⟩
        ⟨strL (r"registry-1.docker.io"), strL (r"library/nginx"),
          strL (r"latest")⟩
      = Except.error PyErr.digestFetch
    ∧ getBearerToken
        ⟨fun _ => Except.ok ⟨401, some (strL (r"Basic realm=x")), none⟩,
          fun _ _ => Except.error ()⟩
        (some (strL (r"Basic realm=x"))) (strL (r"library/nginx")) = none := by
  exact ⟨rfl, rfl⟩

/-- C4 (amended): `get_digest` never fails with `AuthenticationError`, no
matter how the registry behaves: an unsatisfiable token challenge makes
`_get_bearer_token` return `None`, the retry is skipped, and
`raise_for_status` on the 401 surfaces as `DigestFetchError`
(`AuthenticationError` is defined in the source but never raised). -/
theorem c4_no_authentication_error (oracle : RegistryOracle)
    (ref : ImageReference) :
    ImageRegistry.get_digest oracle ref ≠ Except.error PyErr.authentication := by
  intro hcontra
  unfold ImageRegistry.get_digest at hcontra
  revert hcontra
  cases hm : fetchManifest oracle ref.repository with
  | error e => simp
  | ok resp =>
    dsimp only
    cases hd : resp.dockerContentDigest with
    | none => simp
    | some d => by_cases hde : d = [] <;> simp [hde]

/-- C6 counterexample: with the track annotation set to the string `","`
(present and truthy, but parsing to an empty allow-list) and no ignore
annotation, the claim's precedence (allow-list set is empty, ignore absent,
so return the input unchanged) demands the one-container input back; the
code filters against the empty set and returns nothing. -/
theorem c6_counterexample :
    ContainerSelector.select [⟨strL (r"app"), strL (r"nginx:1"), none⟩]
        (some { track := some (strL (r",")) }) = []
    ∧ splitNames (strL (r",")) = []
    ∧ ([] : List ContainerInfo)
        ≠ [⟨strL (r"app"), strL (r"nginx:1"), none⟩] := by
  exact ⟨rfl, rfl, by decide⟩

/-- C6 (amended): when the raw track annotation is present and non-empty as
a string, `select` keeps exactly the containers whose name is in the parsed
allow-list (which may be empty, selecting nothing) and the ignore
annotation is never consulted; otherwise a present non-empty ignore string
removes exactly the parsed deny-list; otherwise the input is returned
unchanged; in every case the output is a sublist of the input (input order
preserved). -/
theorem c6_select_precedence (containers : List ContainerInfo)
    (a : Annotations) :
    (pyTruthy a.track = true →
      (ContainerSelector.select containers (some a)
        = containers.filter
            (fun c => (splitNames (a.track.getD [])).contains c.name))
      ∧ ∀ ig, ContainerSelector.select containers (some { a with ignore := ig })
          = ContainerSelector.select containers (some a))
    ∧ (pyTruthy a.track = false → pyTruthy a.ignore = true →
      ContainerSelector.select containers (some a)
        = containers.filter
            (fun c => !((splitNames (a.ignore.getD [])).contains c.name)))
    ∧ (pyTruthy a.track = false → pyTruthy a.ignore = false →
      ContainerSelector.select containers (some a) = containers)
    ∧ (ContainerSelector.select containers (some a)).Sublist containers := by
  refine ⟨fun ht => ⟨?_, fun ig => ?_⟩, fun ht hi => ?_, fun ht hi => ?_, ?_⟩
  · simp [ContainerSelector.select, ht]
  · simp [ContainerSelector.select, ht]
  · simp [ContainerSelector.select, ht, hi]
  · simp [ContainerSelector.select, ht, hi]
  · unfold ContainerSelector.select
    by_cases ht : pyTruthy a.track
    · simp only [Option.getD_some, ht, if_true]
      exact List.filter_sublist _
    · by_cases hi : pyTruthy a.ignore
      · simp only [Option.getD_some, ht, hi, if_false, if_true]
        exact List.filter_sublist _
      · simp only [Option.getD_some, ht, hi, if_false]
        exact List.Sublist.refl _

/-- C6 witness: the track branch instantiated on a concrete two-container
pod with both annotations set. -/
theorem c6_witness :
    ContainerSelector.select
        [⟨strL (r"app"), strL (r"nginx:1"), none⟩,
          ⟨strL (r"log"), strL (r"fluentd:1"), none⟩]
        (some { track := some (strL (r"app")),
                ignore := some (strL (r"app")) })
      = [⟨strL (r"app"), strL (r"nginx:1"), none⟩] := by
  have h := ((c6_select_precedence
      [⟨strL (r"app"), strL (r"nginx:1"), none⟩,
        ⟨strL (r"log"), strL (r"fluentd:1"), none⟩]
      { track := some (strL (r"app")),
        ignore := some (strL (r"app")) }).1 (by decide)).1
  rw [h]
  decide

/-- C10: a pod-spec container entry lacking the name field or the image
field is dropped by `_parse_containers` (so it is never tracked, fetched,
or listed in a patch, all of which consume `_parse_containers` output), and
when every regular container entry lacks one of the fields, `reconcile`
terminates with no action exactly as for an empty container list. -/
theorem c10_unnamed_entries_excluded :
    (∀ (l₁ l₂ : List RawContainer) (c : RawContainer),
      (c.name = none ∨ c.image = none) →
      parse_containers (l₁ ++ c :: l₂) = parse_containers (l₁ ++ l₂))
    ∧ (∀ (registry : ImageRegistryFn) (force : Bool) (ts : Str)
        (podSpec : PodSpec) (anns : Annotations),
      (∀ c ∈ podSpec.containers, c.name = none ∨ c.image = none) →
      reconcile registry force ts podSpec anns = Except.ok none) := by
  have hpred : ∀ c : RawContainer, (c.name = none ∨ c.image = none) →
      (c.name.isSome && c.image.isSome) = false := by
    intro c hc
    rcases hc with h | h <;> simp [h]
  constructor
  · intro l₁ l₂ c hc
    simp [parse_containers, List.filter_append, List.filter_cons, hpred c hc]
  · intro registry force ts podSpec anns hall
    have hnil : parse_containers podSpec.containers = [] := by
      unfold parse_containers
      rw [List.filter_eq_nil_iff.mpr (fun c hc => by simp [hpred c (hall c hc)])]
      rfl
    unfold reconcile
    rw [hnil]
    rfl

/-- C10 witness: a pod whose only container entry has an image but no name
is reconciled to no action. -/
theorem c10_witness :
    reconcile (fun _ => Except.error PyErr.digestFetch) false []
        { containers := [{ image := some (strL (r"nginx:1")) }] } {}
      = Except.ok none :=
  c10_unnamed_entries_excluded.2 _ _ _ _ _ (by decide)

lemma foldl_fetch_failed_stays {registry : ImageRegistryFn} :
    ∀ (l : List ContainerInfo) (acc : List (Str × Str) × List Str),
      acc.2 ≠ [] → ∀ r, l.foldlM (fetchDigestsStep registry) acc = Except.ok r →
      r.2 ≠ [] := by
  intro l
  induction l with
  | nil =>
    intro acc hacc r hr
    simp only [List.foldlM_nil] at hr
    cases hr; exact hacc
  | cons c t ih =>
    intro acc hacc r hr
    simp only [List.foldlM_cons] at hr
    cases hstep : fetchDigestsStep registry acc c with
    | error e => rw [hstep] at hr; simp [Bind.bind, Except.bind] at hr
    | ok acc' =>
      rw [hstep] at hr
      simp only [Bind.bind, Except.bind] at hr
      have hacc' : acc'.2 ≠ [] := by
        unfold fetchDigestsStep at hstep
        revert hstep
        cases resolveContainerDigest registry c with
        | ok d => intro hstep; cases hstep; exact hacc
        | error e =>
          cases e with
          | valueError => intro hstep; cases hstep; simp
          | digestFetch => intro hstep; cases hstep; simp
          | authentication => intro hstep; simp at hstep
      exact ih acc' hacc' r hr

lemma foldl_fetch_fail_of_mem {registry : ImageRegistryFn} :
    ∀ (l : List ContainerInfo) (acc : List (Str × Str) × List Str),
      (∃ c ∈ l, resolveContainerDigest registry c = Except.error PyErr.digestFetch
        ∨ resolveContainerDigest registry c = Except.error PyErr.valueError) →
      ∀ r, l.foldlM (fetchDigestsStep registry) acc = Except.ok r → r.2 ≠ [] := by
  intro l
  induction l with
  | nil => rintro acc ⟨c, hc, _⟩ r _; simp at hc
  | cons c t ih =>
    rintro acc ⟨c0, hc0, hfail⟩ r hr
    simp only [List.foldlM_cons] at hr
    cases hstep : fetchDigestsStep registry acc c with
    | error e => rw [hstep] at hr; simp [Bind.bind, Except.bind] at hr
    | ok acc' =>
      rw [hstep] at hr
      simp only [Bind.bind, Except.bind] at hr
      rcases List.mem_cons.mp hc0 with rfl | hmem
      · have hacc' : acc'.2 ≠ [] := by
          unfold fetchDigestsStep at hstep
          rcases hfail with hf | hf <;> rw [hf] at hstep <;>
            (cases hstep; simp)
        exact foldl_fetch_failed_stays t acc' hacc' r hr
      · exact ih acc' ⟨c0, hmem, hfail⟩ r hr

lemma fetch_digests_of_fail {registry : ImageRegistryFn}
    {l : List ContainerInfo}
    (h : ∃ c ∈ l, resolveContainerDigest registry c = Except.error PyErr.digestFetch
      ∨ resolveContainerDigest registry c = Except.error PyErr.valueError) :
    ∀ m, fetch_digests registry l ≠ Except.ok (some m) := by
  intro m hcontra
  unfold fetch_digests at hcontra
  cases hfold : l.foldlM (fetchDigestsStep registry) ([], []) with
  | error e => rw [hfold] at hcontra; simp at hcontra
  | ok acc =>
    rw [hfold] at hcontra
    have hne := foldl_fetch_fail_of_mem l ([], []) h acc hfold
    simp only [if_neg hne] at hcontra
    simp at hcontra

/-- C1: all-or-nothing reconciliation — when the digest resolution of any
tracked container fails with a fetch error (`DigestFetchError`) or a parse
error (`ValueError`), `reconcile` never issues a patch (it returns either
no-action or a propagated exception, and in both outcomes the stored
last-observed-digest annotation is untouched); in particular no digest map
built from the successfully resolved subset is persisted. -/
theorem c1_all_or_nothing (registry : ImageRegistryFn) (force : Bool)
    (ts : Str) (podSpec : PodSpec) (anns : Annotations)
    (h : ∃ c ∈ trackedContainersOf podSpec anns,
      resolveContainerDigest registry c = Except.error PyErr.digestFetch
      ∨ resolveContainerDigest registry c = Except.error PyErr.valueError) :
    ∀ rc, reconcile registry force ts podSpec anns ≠ Except.ok (some rc) := by
  intro rc hcontra
  simp only [reconcile] at hcontra
  split at hcontra
  · simp at hcontra
  · split at hcontra
    · simp at hcontra
    · split at hcontra
      · simp at hcontra
      · simp at hcontra
      · rename_i m heq
        exact fetch_digests_of_fail h m heq

/-- C1 witness: two tracked containers, the first resolves and the second
fails with a fetch error; the reconciliation issues no patch. -/
theorem c1_witness :
    reconcile
        (fun ref => if ref.repository = strL (r"library/nginx")
          then Except.ok (strL (r"sha256:aaa"))
          else Except.error PyErr.digestFetch)
        false []
        { containers :=
            [{ name := some (strL (r"app")), image := some (strL (r"nginx:1")) },
              { name := some (strL (r"web")), image := some (strL (r"bad:1")) }] }
        {}
      ≠ Except.ok (some ⟨⟨[]⟩, [], ⟨[], [], none⟩⟩) :=
  c1_all_or_nothing
    (fun ref => if ref.repository = strL (r"library/nginx")
      then Except.ok (strL (r"sha256:aaa"))
      else Except.error PyErr.digestFetch)
    false []
    { containers :=
        [{ name := some (strL (r"app")), image := some (strL (r"nginx:1")) },
          { name := some (strL (r"web")), image := some (strL (r"bad:1")) }] }
    {}
    ⟨⟨strL (r"web"), strL (r"bad:1"), none⟩, by decide, Or.inl rfl⟩
    ⟨⟨[]⟩, [], ⟨[], [], none⟩⟩

/-- C9 counterexample: with neither a track nor an ignore annotation the
selector's track-all branch returns the `containers` list object itself,
so `tracked.extend(init_containers)` mutates it in place; at this input
(one regular container, one init container, `track-init-containers:
"true"`, a stale stored digest, the flag enabled) the restart call
receives the regular *and* the init container and the pull-policy override
covers the init container too — contradicting the claim's "full unfiltered
list of regular pod-spec containers, not including init containers". -/
theorem c9_counterexample :
    reconcile (fun _ => Except.ok (strL (r"sha256:new"))) true []
        { containers := [{ name := some (strL (r"app")),
                           image := some (strL (r"nginx:1")) }],
          initContainers := [{ name := some (strL (r"init")),
                               image := some (strL (r"busybox:1")) }] }
        { trackInit := some trueStr,
          lastDigest := some (strL (r"app:sha256:old")) }
      = Except.ok (some
          { digest_map := ⟨[(strL (r"app"), strL (r"sha256:new")),
              (strL (r"init"), strL (r"sha256:new"))]⟩
            containers := [⟨strL (r"app"), strL (r"nginx:1"), none⟩,
              ⟨strL (r"init"), strL (r"busybox:1"), none⟩]
            patch := { lastDigestAnnot := strL (r"app:sha256:new,init:sha256:new"),
                       restartedAt := [],
                       pullPolicyContainers := some [strL (r"app"), strL (r"init")] } })
    ∧ [(⟨strL (r"app"), strL (r"nginx:1"), none⟩ : ContainerInfo),
        ⟨strL (r"init"), strL (r"busybox:1"), none⟩]
      ≠ parse_containers [{ name := some (strL (r"app")),
                            image := some (strL (r"nginx:1")) }] := by
  exact ⟨rfl, by decide⟩

/-- C9 (amended): whenever `reconcile` detects a change and issues a
patch, the patch builder receives the `containers` variable as the source
leaves it: the parsed regular list, extended in place by the init
containers exactly when neither the track nor the ignore annotation is
truthy (the selector then returned the regular list object itself, which
`tracked.extend` mutated) and the track-init-containers annotation is
`"true"` (`restartContainersOf`); with the force-pull-policy flag enabled
the patch carries an `imagePullPolicy: "Always"` override for exactly the
containers of that list whose current policy is absent or not `"Always"`,
the container sub-path being omitted (`none`) when no container needs it
or the flag is disabled. -/
theorem c9_patch_restart_containers (registry : ImageRegistryFn)
    (force : Bool) (ts : Str) (podSpec : PodSpec) (anns : Annotations)
    (rc : RestartCall)
    (h : reconcile registry force ts podSpec anns = Except.ok (some rc)) :
    rc.containers = restartContainersOf podSpec anns
    ∧ rc.patch = WorkloadManager.restart rc.digest_map rc.containers force ts
    ∧ (force = true →
        rc.patch.pullPolicyContainers =
          (if (restartContainersOf podSpec anns).filter
              (fun c => decide (c.image_pull_policy ≠ some alwaysStr)) = []
            then none
            else some (((restartContainersOf podSpec anns).filter
              (fun c => decide (c.image_pull_policy ≠ some alwaysStr))).map
                ContainerInfo.name)))
    ∧ (force = false → rc.patch.pullPolicyContainers = none) := by
  have hfn : ContainerInfo.needs_pull_policy_update =
      fun c : ContainerInfo =>
        decide (c.image_pull_policy ≠ some alwaysStr) := rfl
  simp only [reconcile] at h
  split at h
  · simp at h
  · split at h
    · simp at h
    · split at h
      · simp at h
      · simp at h
      · split at h
        · split at h
          · simp only [Except.ok.injEq, Option.some.injEq] at h
            subst h
            refine ⟨rfl, rfl, fun hf => ?_, fun hf => ?_⟩
            · subst hf
              rw [← hfn]
              by_cases hn :
                  (restartContainersOf podSpec anns).filter
                    ContainerInfo.needs_pull_policy_update = []
              · simp [WorkloadManager.restart, hn]
              · simp [WorkloadManager.restart, hn]
            · subst hf
              simp [WorkloadManager.restart]
          · simp at h
        · split at h
          · simp only [Except.ok.injEq, Option.some.injEq] at h
            subst h
            refine ⟨rfl, rfl, fun hf => ?_, fun hf => ?_⟩
            · subst hf
              rw [← hfn]
              by_cases hn :
                  (restartContainersOf podSpec anns).filter
                    ContainerInfo.needs_pull_policy_update = []
              · simp [WorkloadManager.restart, hn]
              · simp [WorkloadManager.restart, hn]
            · subst hf
              simp [WorkloadManager.restart]
          · simp at h

/-- C9 witness: a one-container deployment (no init containers, no
selection annotations) with a stale stored digest and the flag enabled;
the issued patch carries the `Always` override for that container and the
restart list is the regular list. -/
theorem c9_witness :
    (RestartCall.mk ⟨[(strL (r"app"), strL (r"sha256:new"))]⟩
        [⟨strL (r"app"), strL (r"nginx:1"), none⟩]
        { lastDigestAnnot := strL (r"app:sha256:new"), restartedAt := [],
          pullPolicyContainers := some [strL (r"app")] }).containers
      = restartContainersOf
          { containers := [{ name := some (strL (r"app")),
                             image := some (strL (r"nginx:1")) }] }
          { lastDigest := some (strL (r"app:sha256:old")) } :=
  (c9_patch_restart_containers
    (fun _ => Except.ok (strL (r"sha256:new"))) true []
    { containers := [{ name := some (strL (r"app")),
                       image := some (strL (r"nginx:1")) }] }
    { lastDigest := some (strL (r"app:sha256:old")) }
    (RestartCall.mk ⟨[(strL (r"app"), strL (r"sha256:new"))]⟩
      [⟨strL (r"app"), strL (r"nginx:1"), none⟩]
      { lastDigestAnnot := strL (r"app:sha256:new"), restartedAt := [],
        pullPolicyContainers := some [strL (r"app")] })
    rfl).1

lemma prefixFree {c : Char} :
    ∀ {p a b v : Str}, c ∉ p → a ++ c :: b = p ++ v → ∃ w, a = p ++ w := by
  intro p
  induction p with
  | nil => intro a b v _ _; exact ⟨a, rfl⟩
  | cons y p' ih =>
    intro a b v hc h
    cases a with
    | nil =>
      rw [List.nil_append, List.cons_append] at h
      injection h with h1 _
      exact absurd (h1 ▸ List.mem_cons_self y p') hc
    | cons x a' =>
      rw [List.cons_append, List.cons_append] at h
      injection h with h1 h2
      have hc' : c ∉ p' := fun hm => hc (List.mem_cons_of_mem _ hm)
      obtain ⟨w, hw⟩ := ih hc' h2
      exact ⟨w, by rw [List.cons_append, ← hw, h1]⟩

lemma containsSubSplit {p : Str} {c : Char} (hc : c ∉ p) :
    ∀ {a b : Str}, ContainsSub p (a ++ c :: b) →
      ContainsSub p a ∨ ContainsSub p b := by
  intro a
  induction a with
  | nil =>
    rintro b ⟨u, v, h⟩
    cases u with
    | nil =>
      rw [List.nil_append, List.nil_append] at h
      cases p with
      | nil => exact Or.inl ⟨[], [], rfl⟩
      | cons y p' =>
        rw [List.cons_append] at h
        injection h with h1 _
        exact absurd (h1 ▸ List.mem_cons_self y p') hc
    | cons x u' =>
      rw [List.nil_append, List.cons_append] at h
      injection h with _ h2
      exact Or.inr ⟨u', v, h2⟩
  | cons x a' ih =>
    rintro b ⟨u, v, h⟩
    cases u with
    | nil =>
      rw [List.nil_append] at h
      obtain ⟨w, hw⟩ := prefixFree hc h
      exact Or.inl ⟨[], w, by simpa using hw⟩
    | cons y u' =>
      rw [List.cons_append, List.cons_append, List.cons_append] at h
      injection h with h1 h2
      rcases ih ⟨u', v, by simpa using h2⟩ with hl | hr
      · obtain ⟨u0, v0, h0⟩ := hl
        exact Or.inl ⟨x :: u0, v0, by simp [h0]⟩
      · exact Or.inr hr

lemma containsSubJoin {p : Str} {c : Char} (hc : c ∉ p) (hp : p ≠ []) :
    ∀ {parts : List Str}, ContainsSub p (pyJoin c parts) →
      ∃ part ∈ parts, ContainsSub p part := by
  intro parts
  induction parts with
  | nil =>
    rintro ⟨u, v, h⟩
    rw [show pyJoin c [] = [] from rfl] at h
    rcases List.append_eq_nil.mp (List.append_eq_nil.mp h.symm).1 with ⟨_, hpnil⟩
    exact absurd hpnil hp
  | cons x rest ih =>
    intro h
    cases rest with
    | nil =>
      rw [show pyJoin c [x] = x from rfl] at h
      exact ⟨x, List.mem_cons_self _ _, h⟩
    | cons y t =>
      rw [show pyJoin c (x :: y :: t) = x ++ c :: pyJoin c (y :: t) from rfl]
        at h
      rcases containsSubSplit hc h with hl | hr
      · exact ⟨x, List.mem_cons_self _ _, hl⟩
      · obtain ⟨part, hm, hcp⟩ := ih hr
        exact ⟨part, List.mem_cons_of_mem _ hm, hcp⟩

/-- C3 counterexample: decoding the legacy bare-digest annotation
`"sha256:abc"` and serializing the resulting map emits the sentinel:
`to_annotation` does not filter the legacy key, contradicting the claim's
"never contains the legacy sentinel". -/
theorem c3_counterexample :
    DigestMap.to_annot (DigestMap.from_annot (some (strL (r"sha256:abc"))))
      = strL (r"__legacy__:sha256:abc")
    ∧ hasSub legacyKey
        (DigestMap.to_annot
          (DigestMap.from_annot (some (strL (r"sha256:abc"))))) = true := by
  exact ⟨rfl, rfl⟩

/-- C3 (amended): for every `DigestMap` none of whose stored names or
digests contains the sentinel substring `"__legacy__"` — which excludes
maps decoded from a legacy bare-digest annotation, whose sentinel key is
emitted verbatim — the serialized annotation never contains the sentinel
(the sentinel holds no colon and no comma, so it cannot arise from entry
separators either). -/
theorem c3_legacy_key_not_serialized (m : DigestMap)
    (h : ∀ pr ∈ m.digests, hasSub legacyKey pr.1 = false
      ∧ hasSub legacyKey pr.2 = false) :
    hasSub legacyKey m.to_annot = false := by
  rw [Bool.eq_false_iff]
  intro hcon0
  rw [hasSub_iff] at hcon0
  unfold DigestMap.to_annot at hcon0
  obtain ⟨part, hmem, hcp⟩ :=
    containsSubJoin (by decide) (by decide) hcon0
  obtain ⟨pr, hpr, rfl⟩ := List.mem_map.mp hmem
  have hpr2 : pr ∈ m.digests := by
    have hperm := List.perm_insertionSort pairLe m.digests
    exact hperm.mem_iff.mp (by simpa [sortPairs] using hpr)
  have hco : (':' : Char) ∉ legacyKey := by decide
  rcases containsSubSplit hco (a := pr.1) (b := pr.2) hcp with h1 | h2
  · rw [← hasSub_iff] at h1
    rw [(h pr hpr2).1] at h1
    exact Bool.false_ne_true h1
  · rw [← hasSub_iff] at h2
    rw [(h pr hpr2).2] at h2
    exact Bool.false_ne_true h2

/-- C3 witness: a sentinel-free map serializes without the sentinel. -/
theorem c3_witness :
    hasSub legacyKey
      (DigestMap.to_annot ⟨[(strL (r"nginx"), strL (r"sha256:abc"))]⟩)
      = false :=
  c3_legacy_key_not_serialized ⟨[(strL (r"nginx"), strL (r"sha256:abc"))]⟩
    (by decide)

lemma dropWhileHeadFalse {p : Char → Bool} :
    ∀ {l : List Char} {x : Char} {t : List Char},
      l.dropWhile p = x :: t → p x = false := by
  intro l
  induction l with
  | nil => intro x t h; simp [List.dropWhile] at h
  | cons y ys ih =>
    intro x t h
    rw [List.dropWhile_cons] at h
    by_cases hy : p y = true
    · rw [if_pos hy] at h; exact ih h
    · rw [if_neg hy] at h
      injection h with h1 _
      rw [← h1]
      exact Bool.eq_false_iff.mpr hy

lemma pyStripRevHeadFalse {s : Str} {x : Char} {t : Str}
    (h : (pyStrip s).reverse = x :: t) : isWS x = false := by
  have h2 : (pyStrip s).reverse
      = ((s.dropWhile isWS).reverse).dropWhile isWS := by
    simp [pyStrip]
  rw [h] at h2
  exact dropWhileHeadFalse h2.symm

lemma pyStripHeadFalse {s : Str} {x : Char} {t : Str}
    (h : pyStrip s = x :: t) : isWS x = false := by
  have hW : (x :: t).reverse = ((s.dropWhile isWS).reverse).dropWhile isWS := by
    rw [← h]; simp [pyStrip]
  have hsfx : (x :: t).reverse <:+ (s.dropWhile isWS).reverse := by
    rw [hW]; exact List.dropWhile_suffix _
  have hpre : x :: t <+: s.dropWhile isWS := List.reverse_suffix.mp hsfx
  obtain ⟨r, hr⟩ := hpre
  rw [List.cons_append] at hr
  exact dropWhileHeadFalse hr.symm

lemma dropWhileConsFalse {p : Char → Bool} {x : Char} {l : List Char}
    (h : p x = false) : (x :: l).dropWhile p = x :: l := by
  simp [List.dropWhile_cons, h]

lemma stripFix {s : Str}
    (h1 : ∀ x t, s = x :: t → isWS x = false)
    (h2 : ∀ x t, s.reverse = x :: t → isWS x = false) :
    pyStrip s = s := by
  cases hs : s with
  | nil => rfl
  | cons x t =>
    have hx := h1 x t hs
    have hd1 : (x :: t).dropWhile isWS = x :: t := dropWhileConsFalse hx
    unfold pyStrip
    rw [hd1]
    obtain ⟨y, u, hy⟩ := List.exists_cons_of_ne_nil
      (show (x :: t).reverse ≠ [] by simp)
    have hyW : isWS y = false := h2 y u (by rw [hs]; exact hy)
    rw [hy, dropWhileConsFalse hyW, ← hy]
    simp

lemma pyStrip_idem (s : Str) : pyStrip (pyStrip s) = pyStrip s := by
  apply stripFix
  · intro x t h; exact pyStripHeadFalse h
  · intro x t h; exact pyStripRevHeadFalse h

lemma mem_pyStrip {x : Char} {s : Str} (h : x ∈ pyStrip s) : x ∈ s := by
  unfold pyStrip at h
  rw [List.mem_reverse] at h
  have h2 := (List.dropWhile_suffix isWS).subset h
  rw [List.mem_reverse] at h2
  exact (List.dropWhile_suffix isWS).subset h2

lemma pySplit_ne_nil (c : Char) : ∀ (s : Str), pySplit c s ≠ [] := by
  intro s
  induction s with
  | nil => simp [pySplit]
  | cons x xs ih =>
    by_cases hx : x = c
    · simp [pySplit, hx]
    · simp only [pySplit, if_neg hx]
      cases hsp : pySplit c xs with
      | nil => exact absurd hsp ih
      | cons h0 t0 => simp

lemma pySplit_cons_ne {c x : Char} {xs : Str} (hx : ¬(x = c)) :
    ∀ {h0 : Str} {t0 : List Str}, pySplit c xs = h0 :: t0 →
      pySplit c (x :: xs) = (x :: h0) :: t0 := by
  intro h0 t0 hsp
  simp [pySplit, if_neg hx, hsp]

lemma pySplitPartsNoSep {c : Char} :
    ∀ {s : Str} {part : Str}, part ∈ pySplit c s → c ∉ part := by
  intro s
  induction s with
  | nil =>
    intro part h
    simp only [pySplit, List.mem_singleton] at h
    subst h; simp
  | cons x xs ih =>
    intro part h
    by_cases hx : x = c
    · rw [show pySplit c (x :: xs) = [] :: pySplit c xs by
        simp [pySplit, hx]] at h
      rcases List.mem_cons.mp h with rfl | h2
      · simp
      · exact ih h2
    · obtain ⟨h0, t0, hsp⟩ := List.exists_cons_of_ne_nil (pySplit_ne_nil c xs)
      rw [pySplit_cons_ne hx hsp] at h
      rcases List.mem_cons.mp h with rfl | h2
      · intro hm
        rcases List.mem_cons.mp hm with hcx | h3
        · exact hx hcx.symm
        · exact ih (by rw [hsp]; exact List.mem_cons_self h0 t0) h3
      · exact ih (by rw [hsp]; exact List.mem_cons_of_mem _ h2)

lemma pySplitNoSep {c : Char} : ∀ {s : Str}, c ∉ s → pySplit c s = [s] := by
  intro s
  induction s with
  | nil => intro _; rfl
  | cons x xs ih =>
    intro h
    have hx : ¬(x = c) := fun hh => h (by rw [hh]; exact List.mem_cons_self c xs)
    exact pySplit_cons_ne hx (ih (fun hm => h (List.mem_cons_of_mem _ hm)))

lemma pySplitJoinStep {c : Char} :
    ∀ {x : Str}, c ∉ x → ∀ (r : Str), pySplit c (x ++ c :: r) = x :: pySplit c r := by
  intro x
  induction x with
  | nil => intro _ r; simp [pySplit]
  | cons y x' ih =>
    intro hc r
    have hy : ¬(y = c) := fun hh => hc (by rw [hh]; exact List.mem_cons_self c x')
    rw [List.cons_append]
    exact pySplit_cons_ne hy (ih (fun hm => hc (List.mem_cons_of_mem _ hm)) r)

lemma pySplitJoin {c : Char} :
    ∀ {parts : List Str}, parts ≠ [] → (∀ part ∈ parts, c ∉ part) →
      pySplit c (pyJoin c parts) = parts := by
  intro parts
  induction parts with
  | nil => intro h _; exact absurd rfl h
  | cons x rest ih =>
    intro _ hfree
    cases rest with
    | nil =>
      rw [show pyJoin c [x] = x from rfl]
      exact pySplitNoSep (hfree x (List.mem_cons_self x []))
    | cons y t =>
      rw [show pyJoin c (x :: y :: t) = x ++ c :: pyJoin c (y :: t) from rfl]
      rw [pySplitJoinStep (hfree x (List.mem_cons_self _ _))]
      rw [ih (by simp) (fun part hp => hfree part (List.mem_cons_of_mem _ hp))]

lemma pyJoin_ne_nil {c : Char} {x : Str} (hx : x ≠ []) :
    ∀ (rest : List Str), pyJoin c (x :: rest) ≠ [] := by
  intro rest
  cases rest with
  | nil => exact hx
  | cons y t =>
    rw [show pyJoin c (x :: y :: t) = x ++ c :: pyJoin c (y :: t) from rfl]
    simp

lemma pySplitFirstNoSepLeft (c : Char) : ∀ (s : Str), c ∉ (pySplitFirst c s).1 := by
  intro s
  induction s with
  | nil => simp [pySplitFirst]
  | cons x xs ih =>
    by_cases hx : x = c
    · simp [pySplitFirst, hx]
    · simp only [pySplitFirst, if_neg hx]
      intro hmem
      rcases List.mem_cons.mp hmem with hcx | h2
      · exact hx hcx.symm
      · exact ih h2

lemma pySplitFirstLeftSubset (c : Char) :
    ∀ (s : Str), ∀ x ∈ (pySplitFirst c s).1, x ∈ s := by
  intro s
  induction s with
  | nil => simp [pySplitFirst]
  | cons y ys ih =>
    intro x hx
    by_cases hy : y = c
    · simp [pySplitFirst, hy] at hx
    · simp only [pySplitFirst, if_neg hy] at hx
      rcases List.mem_cons.mp hx with rfl | h2
      · exact List.mem_cons_self _ _
      · exact List.mem_cons_of_mem _ (ih x h2)

lemma pySplitFirstRightSubset (c : Char) :
    ∀ (s : Str), ∀ x ∈ (pySplitFirst c s).2, x ∈ s := by
  intro s
  induction s with
  | nil => simp [pySplitFirst]
  | cons y ys ih =>
    intro x hx
    by_cases hy : y = c
    · simp only [pySplitFirst, if_pos hy] at hx
      exact List.mem_cons_of_mem _ hx
    · simp only [pySplitFirst, if_neg hy] at hx
      exact List.mem_cons_of_mem _ (ih x hx)

lemma pySplitFirstAppend {c : Char} :
    ∀ {n : Str}, c ∉ n → ∀ (d : Str), pySplitFirst c (n ++ c :: d) = (n, d) := by
  intro n
  induction n with
  | nil => intro _ d; simp [pySplitFirst]
  | cons x n' ih =>
    intro hc d
    have hx : ¬(x = c) := fun h => hc (by rw [← h]; exact List.mem_cons_self x n')
    rw [List.cons_append]
    simp only [pySplitFirst, if_neg hx]
    rw [ih (fun hm => hc (List.mem_cons_of_mem _ hm)) d]

lemma stripEntryStr {pr : Str × Str} (h : GoodPair pr) :
    pyStrip (entryStr pr) = entryStr pr := by
  obtain ⟨hsn, hnn, _, _, hsd, hnd, _⟩ := h
  apply stripFix
  · intro x t hx
    obtain ⟨n0, nt, hn⟩ := List.exists_cons_of_ne_nil hnn
    rw [show entryStr pr = pr.1 ++ ':' :: pr.2 from rfl, hn,
      List.cons_append] at hx
    injection hx with h1 _
    rw [← h1]
    exact pyStripHeadFalse (hsn.trans hn)
  · intro x t hx
    obtain ⟨d0, dt, hd⟩ := List.exists_cons_of_ne_nil
      (show pr.2.reverse ≠ [] by simp [hnd])
    have hx2 : (entryStr pr).reverse = d0 :: (dt ++ ':' :: pr.1.reverse) := by
      show (pr.1 ++ ':' :: pr.2).reverse = _
      rw [List.reverse_append, List.reverse_cons, hd]
      simp
    rw [hx2] at hx
    injection hx with h1 _
    rw [← h1]
    exact pyStripRevHeadFalse (x := d0) (t := dt) (by rw [hsd]; exact hd)

lemma entryStrNoComma {pr : Str × Str} (h : GoodPair pr) :
    ',' ∉ entryStr pr := by
  obtain ⟨_, _, _, hcn, _, _, hcd⟩ := h
  intro hm
  rw [show entryStr pr = pr.1 ++ ':' :: pr.2 from rfl] at hm
  rcases List.mem_append.mp hm with h1 | h2
  · exact hcn h1
  · rcases List.mem_cons.mp h2 with hc | h3
    · exact absurd hc (by decide)
    · exact hcd h3

lemma parseEntryGood (acc : List (Str × Str)) (pr : Str × Str)
    (h : GoodPair pr) :
    parseEntry acc (entryStr pr) = pyInsert acc pr.1 pr.2 := by
  have hstrip := stripEntryStr h
  obtain ⟨hsn, hnn, hcoln, _, hsd, hnd, _⟩ := h
  have hcont : pyContains ':' (entryStr pr) = true :=
    (pyContains_iff _ _).mpr
      (by rw [show entryStr pr = pr.1 ++ ':' :: pr.2 from rfl]
          exact List.mem_append.mpr (Or.inr (List.mem_cons_self _ _)))
  have hsplitf : pySplitFirst ':' (entryStr pr) = (pr.1, pr.2) :=
    pySplitFirstAppend hcoln pr.2
  simp only [parseEntry, hstrip, hcont, hsplitf, hsn, hsd]
  simp [hnn, hnd]

lemma pyInsertKeys_nodup {l : List (Str × Str)} {k v : Str}
    (h : (pyKeys l).Nodup) : (pyKeys (pyInsert l k v)).Nodup := by
  unfold pyInsert
  by_cases hk : pyHasKey l k
  · rw [if_pos hk]
    have hkeys : pyKeys (l.map (fun p => if p.1 = k then (p.1, v) else p))
        = pyKeys l := by
      unfold pyKeys
      rw [List.map_map]
      exact List.map_congr_left (fun p _ => by
        by_cases hp : p.1 = k <;> simp [hp])
    rw [hkeys]; exact h
  · rw [if_neg hk]
    unfold pyKeys
    rw [List.map_append]
    refine List.nodup_append.mpr ⟨h, by simp, ?_⟩
    intro a ha hb
    simp only [List.map_cons, List.map_nil, List.mem_singleton] at hb
    subst hb
    exact hk ((pyHasKey_iff l a).mpr ha)

lemma pyInsertGood {acc : List (Str × Str)} {n d : Str}
    (hacc : ∀ pr ∈ acc, GoodPair pr) (hnd : GoodPair (n, d)) :
    ∀ pr ∈ pyInsert acc n d, GoodPair pr := by
  intro pr hpr
  unfold pyInsert at hpr
  by_cases hk : pyHasKey acc n
  · rw [if_pos hk] at hpr
    obtain ⟨q, hq, rfl⟩ := List.mem_map.mp hpr
    by_cases hq1 : q.1 = n
    · simp only [if_pos hq1]
      have hgq := hacc q hq
      exact ⟨(hq1 ▸ hnd.1 : pyStrip q.1 = q.1), hq1 ▸ hnd.2.1,
        hq1 ▸ hnd.2.2.1, hq1 ▸ hnd.2.2.2.1, hnd.2.2.2.2.1,
        hnd.2.2.2.2.2.1, hnd.2.2.2.2.2.2⟩
    · simp only [if_neg hq1]
      exact hacc q hq
  · rw [if_neg hk] at hpr
    rcases List.mem_append.mp hpr with h1 | h2
    · exact hacc pr h1
    · rw [List.mem_singleton] at h2
      rw [h2]
      exact hnd

lemma parseEntryPreserves {acc : List (Str × Str)} {raw : Str}
    (h1 : ∀ pr ∈ acc, GoodPair pr) (h2 : (pyKeys acc).Nodup)
    (hraw : ',' ∉ raw) :
    (∀ pr ∈ parseEntry acc raw, GoodPair pr)
    ∧ (pyKeys (parseEntry acc raw)).Nodup := by
  simp only [parseEntry]
  by_cases hcol : pyContains ':' (pyStrip raw) = false
  · rw [if_pos hcol]
    exact ⟨h1, h2⟩
  · rw [if_neg hcol]
    by_cases hne : pyStrip (pySplitFirst ':' (pyStrip raw)).1 ≠ []
        ∧ pyStrip (pySplitFirst ':' (pyStrip raw)).2 ≠ []
    · rw [if_pos hne]
      have hgood : GoodPair (pyStrip (pySplitFirst ':' (pyStrip raw)).1,
          pyStrip (pySplitFirst ':' (pyStrip raw)).2) := by
        refine ⟨pyStrip_idem _, hne.1, ?_, ?_, pyStrip_idem _, hne.2, ?_⟩
        · intro hm
          exact pySplitFirstNoSepLeft ':' (pyStrip raw) (mem_pyStrip hm)
        · intro hm
          exact hraw (mem_pyStrip
            (pySplitFirstLeftSubset ':' (pyStrip raw) ',' (mem_pyStrip hm)))
        · intro hm
          exact hraw (mem_pyStrip
            (pySplitFirstRightSubset ':' (pyStrip raw) ',' (mem_pyStrip hm)))
      exact ⟨pyInsertGood h1 hgood, pyInsertKeys_nodup h2⟩
    · rw [if_neg hne]
      exact ⟨h1, h2⟩

lemma parseEntriesInv (s : Str) :
    (∀ pr ∈ parseEntries s, GoodPair pr)
    ∧ (pyKeys (parseEntries s)).Nodup := by
  unfold parseEntries
  have hgen : ∀ (raws : List Str) (acc : List (Str × Str)),
      (∀ part ∈ raws, ',' ∉ part) → (∀ pr ∈ acc, GoodPair pr) →
      (pyKeys acc).Nodup →
      (∀ pr ∈ raws.foldl parseEntry acc, GoodPair pr)
      ∧ (pyKeys (raws.foldl parseEntry acc)).Nodup := by
    intro raws
    induction raws with
    | nil => intro acc _ h1 h2; exact ⟨h1, h2⟩
    | cons raw t ih =>
      intro acc hfree h1 h2
      rw [List.foldl_cons]
      have hp := parseEntryPreserves h1 h2 (hfree raw (List.mem_cons_self _ _))
      exact ih _ (fun part hp2 => hfree part (List.mem_cons_of_mem _ hp2))
        hp.1 hp.2
  exact hgen _ [] (fun part hp => pySplitPartsNoSep hp) (by simp)
    (by simp [pyKeys])

lemma foldInsertAppend :
    ∀ (l acc : List (Str × Str)), (pyKeys l).Nodup →
      (∀ k ∈ pyKeys l, k ∉ pyKeys acc) →
      l.foldl (fun a pr => pyInsert a pr.1 pr.2) acc = acc ++ l := by
  intro l
  induction l with
  | nil => intro acc _ _; simp
  | cons pr t ih =>
    intro acc hnd hdisj
    obtain ⟨k, v⟩ := pr
    simp only [pyKeys, List.map_cons, List.nodup_cons] at hnd
    have hknot : k ∉ pyKeys acc := hdisj k (by simp [pyKeys])
    have hinsert : pyInsert acc k v = acc ++ [(k, v)] := by
      unfold pyInsert
      rw [if_neg (fun hk => hknot ((pyHasKey_iff _ _).mp hk))]
    rw [List.foldl_cons]
    simp only
    rw [hinsert]
    have hdisj2 : ∀ q ∈ pyKeys t, q ∉ pyKeys (acc ++ [(k, v)]) := by
      intro q hq hmem
      unfold pyKeys at hmem
      rw [List.map_append] at hmem
      rcases List.mem_append.mp hmem with hq1 | hq2
      · refine hdisj q ?_ hq1
        unfold pyKeys at hq ⊢
        rw [List.map_cons]
        exact List.mem_cons_of_mem _ hq
      · simp only [List.map_cons, List.map_nil, List.mem_singleton] at hq2
        subst hq2
        exact hnd.1 hq
    rw [ih (acc ++ [(k, v)]) hnd.2 hdisj2]
    simp

lemma foldMapEntry :
    ∀ (l acc : List (Str × Str)), (∀ pr ∈ l, GoodPair pr) →
      (l.map entryStr).foldl parseEntry acc
        = l.foldl (fun a pr => pyInsert a pr.1 pr.2) acc := by
  intro l
  induction l with
  | nil => intro acc _; rfl
  | cons pr t ih =>
    intro acc hg
    rw [List.map_cons, List.foldl_cons, List.foldl_cons,
      parseEntryGood acc pr (hg pr (List.mem_cons_self _ _))]
    exact ih _ (fun q hq => hg q (List.mem_cons_of_mem _ hq))

lemma parseEntriesJoin {l : List (Str × Str)} (hne : l ≠ [])
    (hg : ∀ pr ∈ l, GoodPair pr) (hnd : (pyKeys l).Nodup) :
    parseEntries (pyJoin ',' (l.map entryStr)) = l := by
  unfold parseEntries
  rw [pySplitJoin (by simpa using hne)
    (by intro part hp
        obtain ⟨pr, hpr, rfl⟩ := List.mem_map.mp hp
        exact entryStrNoComma (hg pr hpr))]
  rw [foldMapEntry l [] hg]
  rw [foldInsertAppend l [] hnd (by simp [pyKeys])]
  simp

/-- C7 counterexample: `"sha256:a,sha256:b"` is a well-formed non-legacy
annotation (two entries, non-empty names and digests, contains a comma),
but its re-encoding `"sha256:b"` matches the bare-digest legacy pattern, so
the second decode takes the legacy branch and the double round trip yields
`"__legacy__:sha256:b"`, breaking idempotence. -/
theorem c7_counterexample :
    wellFormedAnnot (strL (r"sha256:a,sha256:b")) = true
    ∧ DigestMap.to_annot
        (DigestMap.from_annot (some (strL (r"sha256:a,sha256:b"))))
        = strL (r"sha256:b")
    ∧ DigestMap.to_annot (DigestMap.from_annot (some (DigestMap.to_annot
        (DigestMap.from_annot (some (strL (r"sha256:a,sha256:b")))))))
        = strL (r"__legacy__:sha256:b")
    ∧ strL (r"__legacy__:sha256:b") ≠ strL (r"sha256:b") := by
  exact ⟨by decide, rfl, rfl, by decide⟩

/-- C7 (amended): for every well-formed non-legacy annotation string whose
re-encoding does not itself match the bare-digest legacy pattern, the codec
is idempotent on its own output; the empty map encodes to the empty string;
and the encoder emits the entries as a permutation of the stored pairs
sorted by the Python pair order (name first, so sorted by container name —
the keys of a dict being distinct). -/
theorem c7_codec_round_trip :
    (∀ s : Str, wellFormedAnnot s = true →
      isLegacyAnnot (DigestMap.to_annot (DigestMap.from_annot (some s)))
        = false →
      DigestMap.to_annot (DigestMap.from_annot (some
        (DigestMap.to_annot (DigestMap.from_annot (some s)))))
        = DigestMap.to_annot (DigestMap.from_annot (some s)))
    ∧ DigestMap.to_annot ⟨[]⟩ = []
    ∧ (∀ m : DigestMap, (sortPairs m.digests).Perm m.digests
        ∧ List.Sorted pairLe (sortPairs m.digests)) := by
  refine ⟨?_, rfl, fun m => ⟨List.perm_insertionSort pairLe m.digests,
    List.sorted_insertionSort pairLe m.digests⟩⟩
  intro s hwf hleg
  have hsne : s ≠ [] := fun hs => absurd (hs ▸ hwf) (by decide)
  have hfalse : isLegacyAnnot s = false := by
    cases hlegb : isLegacyAnnot s with
    | false => rfl
    | true =>
      exfalso
      unfold wellFormedAnnot at hwf
      rw [hlegb] at hwf
      simp at hwf
  have hdec : DigestMap.from_annot (some s) = ⟨parseEntries s⟩ := by
    show (if s = [] then (⟨[]⟩ : DigestMap)
      else if isLegacyAnnot s = true then ⟨[(legacyKey, s)]⟩
      else ⟨parseEntries s⟩) = ⟨parseEntries s⟩
    rw [if_neg hsne, if_neg (by simp [hfalse])]
  rw [hdec] at hleg ⊢
  obtain ⟨hgood, hnd⟩ := parseEntriesInv s
  by_cases hMnil : parseEntries s = []
  · rw [hMnil]
    rfl
  · have hperm := List.perm_insertionSort pairLe (parseEntries s)
    have hgood2 : ∀ pr ∈ sortPairs (parseEntries s), GoodPair pr :=
      fun pr hp => hgood pr (hperm.mem_iff.mp hp)
    have hnd2 : (pyKeys (sortPairs (parseEntries s))).Nodup :=
      ((hperm.map Prod.fst).nodup_iff).mpr hnd
    have hlne : sortPairs (parseEntries s) ≠ [] := by
      intro hl
      have hl2 : List.insertionSort pairLe (parseEntries s) = [] := hl
      rw [hl2] at hperm
      exact hMnil hperm.symm.eq_nil
    have htne : DigestMap.to_annot ⟨parseEntries s⟩ ≠ [] := by
      obtain ⟨x, rest, hx⟩ := List.exists_cons_of_ne_nil hlne
      show pyJoin ',' ((sortPairs (parseEntries s)).map entryStr) ≠ []
      rw [hx, List.map_cons]
      refine pyJoin_ne_nil ?_ _
      rw [show entryStr x = x.1 ++ ':' :: x.2 from rfl]
      simp
    have hdec2 : DigestMap.from_annot
        (some (DigestMap.to_annot ⟨parseEntries s⟩))
        = ⟨sortPairs (parseEntries s)⟩ := by
      show (if DigestMap.to_annot ⟨parseEntries s⟩ = [] then (⟨[]⟩ : DigestMap)
        else if isLegacyAnnot (DigestMap.to_annot ⟨parseEntries s⟩) = true
          then ⟨[(legacyKey, DigestMap.to_annot ⟨parseEntries s⟩)]⟩
        else ⟨parseEntries (DigestMap.to_annot ⟨parseEntries s⟩)⟩)
        = ⟨sortPairs (parseEntries s)⟩
      rw [if_neg htne, if_neg (by simp [hleg])]
      congr 1
      show parseEntries
        (pyJoin ',' ((sortPairs (parseEntries s)).map entryStr)) = _
      exact parseEntriesJoin hlne hgood2 hnd2
    rw [hdec2]
    show pyJoin ','
        ((sortPairs (sortPairs (parseEntries s))).map entryStr)
      = pyJoin ',' ((sortPairs (parseEntries s)).map entryStr)
    rw [show sortPairs (sortPairs (parseEntries s))
        = sortPairs (parseEntries s) from
      List.Sorted.insertionSort_eq (List.sorted_insertionSort pairLe _)]

/-- C7 witness: the unordered two-entry annotation `"b:2,a:1"` re-encodes
stably (to `"a:1,b:2"`). -/
theorem c7_witness :
    DigestMap.to_annot (DigestMap.from_annot (some
      (DigestMap.to_annot (DigestMap.from_annot (some (strL (r"b:2,a:1")))))))
      = DigestMap.to_annot (DigestMap.from_annot (some (strL (r"b:2,a:1")))) :=
  c7_codec_round_trip.1 (strL (r"b:2,a:1")) (by decide) (by decide)
